import Mathlib

/-!
Shallow embedding of the geometric core of the `raytracer` repository
(`src/ray.rs`, `src/objects/intersections.rs`, `src/utils/shape.rs`,
`src/scenes/canvas.rs`) and proofs of the specification claims.

Finite (non-NaN) `f64` values are embedded as exact rationals (every finite
double is a rational number, and `f64` comparison agrees with rational order);
the square-root–carrying code of `Ray::intersect` is embedded over the reals,
since its results are irrational in general.  A Rust `panic!` / failed
`assert!` / out-of-bounds index is modelled by an `Option` / dedicated
error constructor.
-/

namespace RT

/-- Modelled from the spec: `Vector`, a 3-component geometric quantity from the
`collections` collaborator (not under `src/`); translate-insensitive. -/
structure Vector where
  x : ℚ
  y : ℚ
  z : ℚ
deriving DecidableEq, Repr

/-- Modelled from the spec: `Point`, a 3-component affine geometric quantity
from the `collections` collaborator (not under `src/`). -/
structure Point where
  x : ℚ
  y : ℚ
  z : ℚ
deriving DecidableEq, Repr

instance : Neg Vector := ⟨fun v => ⟨-v.x, -v.y, -v.z⟩⟩

instance : HMul Vector ℚ Vector := ⟨fun v c => ⟨v.x * c, v.y * c, v.z * c⟩⟩

instance : HMul ℚ Vector Vector := ⟨fun c v => ⟨c * v.x, c * v.y, c * v.z⟩⟩

instance : HAdd Point Vector Point := ⟨fun p v => ⟨p.x + v.x, p.y + v.y, p.z + v.z⟩⟩

instance : HSub Point Point Vector := ⟨fun p q => ⟨p.x - q.x, p.y - q.y, p.z - q.z⟩⟩

/-- Modelled from the spec: dot product of the `Vector` collaborator. -/
def Vector.dot (v w : Vector) : ℚ :=
  v.x * w.x + v.y * w.y + v.z * w.z

/-- Modelled from the spec: the affine-transform collaborator.  This core only
ever applies a transform to points and vectors and inverts it, so a transform
is embedded as its forward and inverse actions on points and vectors. -/
structure Transform where
  fwdP : Point → Point
  fwdV : Vector → Vector
  invP : Point → Point
  invV : Vector → Vector

/-- Modelled from the spec: `invert` of the affine-transform collaborator —
swaps the forward and inverse actions. -/
def Transform.invert (t : Transform) : Transform :=
  ⟨t.invP, t.invV, t.fwdP, t.fwdV⟩

/-- Modelled from the spec: the identity transform. -/
def Transform.identity : Transform :=
  ⟨id, id, id, id⟩

/-- Modelled from the spec: `Material` is opaque to this core; it is only
referenced and forwarded, never inspected. -/
structure Material where
  tag : ℕ
deriving DecidableEq, Repr

/-- Modelled from the spec: `Colour`, an opaque RGB value to this core. -/
structure Colour where
  red : ℚ
  green : ℚ
  blue : ℚ
deriving DecidableEq, Repr

/-- Modelled from the spec: `objects::Ray` (origin plus direction), used by
`objects/intersections.rs` and `utils/shape.rs`; its module is not under
`src/`.  Matches the spec's `Ray` data model. -/
structure Ray where
  origin : Point
  direction : Vector

/-- Modelled from the spec: `Ray::position`, parametric evaluation
`origin + t * direction`. -/
def Ray.position (r : Ray) (t : ℚ) : Point :=
  r.origin + t * r.direction

/-- Modelled from the spec: `Transformable for Ray` — transforms the origin as
a point and the direction as a vector. -/
def Ray.transform (r : Ray) (t : Transform) : Ray :=
  ⟨t.fwdP r.origin, t.fwdV r.direction⟩

/-- Modelled from the spec: the `Light` collaborator, consumed only through
its external lighting function `shade_phong`. -/
structure Light where
  shadePhong : Material → Point → Vector → Vector → Bool → Colour

/-- The `Shape` capability set of `src/utils/shape.rs`
(`local_intersect`, `normal_at`, `material`, `transformation_matrix`),
embedded as a structure (a shallow embedding of trait objects). -/
structure Shape where
  localIntersect : Ray → Option (List ℚ)
  normalAt : Point → Vector
  material : Material
  transformationMatrix : Transform

/-- `EPSILON` of `src/objects/intersections.rs` (`1e-6`). -/
def EPSILON : ℚ := 1 / 1000000

/-- `RawIntersect` of `src/objects/intersections.rs`: a parameter `t`
together with the struck shape and the originating ray (borrows embedded
as values). -/
structure RawIntersect where
  t : ℚ
  object : Shape
  ray : Ray

/-- `ComputedIntersect` of `src/objects/intersections.rs`. -/
structure ComputedIntersect where
  t : ℚ
  object : Shape
  ray : Ray
  target : Point
  eyev : Vector
  normal : Vector
  inside : Bool
  over_point : Point

/-- `RawIntersect::precompute` of `src/objects/intersections.rs`.  The match
on `normal.dot(eyev)` has three arms: `< 0` (flip the normal, inside),
`>= 0` (outside), and a catch-all `panic!()`; the panic arm is modelled as
`none`. -/
def RawIntersect.precompute (ri : RawIntersect) : Option ComputedIntersect :=
  let t := ri.t
  let object := ri.object
  let ray := ri.ray
  let target := ray.position t
  let eyev := -ray.direction
  let normal0 := object.normalAt target
  if (normal0.dot eyev) < 0 then
    some { t := t, object := object, ray := ray, target := target,
           eyev := eyev, normal := -normal0, inside := true,
           over_point := target + (-normal0) * EPSILON }
  else if 0 ≤ (normal0.dot eyev) then
    some { t := t, object := object, ray := ray, target := target,
           eyev := eyev, normal := normal0, inside := false,
           over_point := target + normal0 * EPSILON }
  else
    none

/-- `ComputedIntersect::shade` of `src/objects/intersections.rs`: delegates
to the light's `shade_phong` with the object's material, the `over_point`,
`eyev`, the stored `normal` and the shadow flag. -/
def ComputedIntersect.shade (c : ComputedIntersect) (light : Light)
    (shadowed : Bool) : Colour :=
  light.shadePhong c.object.material c.over_point c.eyev c.normal shadowed

/-- `Intersections` of `src/objects/intersections.rs`: a tuple struct over a
vector of records (`recs` is Rust's `.0`). -/
structure Intersections where
  recs : List RawIntersect

/-- List-level insertion used to model `Vec::sort_by` in
`Intersections::new`: puts `x` before the first element whose `t` is
strictly greater, and after earlier elements with equal `t`. -/
def insert_by_t (x : RawIntersect) : List RawIntersect → List RawIntersect
  | [] => [x]
  | y :: ys => if x.t ≤ y.t then x :: y :: ys else y :: insert_by_t x ys

/-- Insertion sort by `t`.  Rust's `Vec::sort_by` is a stable sort, and a
stable sort's output is uniquely determined by the comparison, so this
stable insertion sort computes exactly the list `sort_by` produces (for the
total comparison `partial_cmp(..).unwrap()` on non-NaN values). -/
def sort_by_t : List RawIntersect → List RawIntersect
  | [] => []
  | x :: xs => insert_by_t x (sort_by_t xs)

/-- `Intersections::new` of `src/objects/intersections.rs`:
`assert_ne!(vec.len(), 0)` (modelled as `none` on the empty vector), then
sorts ascending by `t`. -/
def Intersections.new : List RawIntersect → Option Intersections
  | [] => none
  | x :: xs => some ⟨sort_by_t (x :: xs)⟩

/-- List-level body of `Intersections::add_raw_intersect`: scan for the
first element `v` with `intersect.t < v.t`, insert there; if none, push at
the end. -/
def add_raw_aux (x : RawIntersect) : List RawIntersect → List RawIntersect
  | [] => [x]
  | v :: rest => if x.t < v.t then x :: v :: rest else v :: add_raw_aux x rest

/-- `Intersections::add_raw_intersect` of `src/objects/intersections.rs`. -/
def Intersections.add_raw_intersect (s : Intersections) (x : RawIntersect) :
    Intersections :=
  ⟨add_raw_aux x s.recs⟩

/-- `Intersections::combine_intersections` of
`src/objects/intersections.rs`: inserts every record of the other
collection, in order. -/
def Intersections.combine_intersections (s other : Intersections) :
    Intersections :=
  other.recs.foldl Intersections.add_raw_intersect s

/-- `Intersections::hit` of `src/objects/intersections.rs`: first record
(in stored order) with `t >= 0`. -/
def Intersections.hit (s : Intersections) : Option RawIntersect :=
  s.recs.find? (fun v => decide (0 ≤ v.t))

/-- `Default for Intersections` of `src/objects/intersections.rs`: the
empty collection. -/
def Intersections.default : Intersections := ⟨[]⟩

/-- `impl<S: Shape> Intersectable for S` of `src/utils/shape.rs` (the
generic blanket wrapper): transform the world ray by the inverse of the
shape's transform, return the default (empty) collection when
`local_intersect` is `None`, otherwise wrap each parameter into a
`RawIntersect` bound to the shape and the original world ray and collect
via `Intersections::from` (= `Intersections::new`, which can panic on an
empty vector — hence the `Option`). -/
def intersect_generic (s : Shape) (world_ray : Ray) : Option Intersections :=
  let local_ray := world_ray.transform s.transformationMatrix.invert
  match s.localIntersect local_ray with
  | none => some Intersections.default
  | some intersects =>
      Intersections.new (intersects.map (fun t => RawIntersect.mk t s world_ray))

/-- `impl Intersectable for dyn Shape` of `src/utils/shape.rs` (the
type-erased wrapper): its body is written out separately in the source;
embedded separately here as well. -/
def intersect_dyn (s : Shape) (world_ray : Ray) : Option Intersections :=
  let local_ray := world_ray.transform s.transformationMatrix.invert
  match s.localIntersect local_ray with
  | none => some Intersections.default
  | some intersects =>
      Intersections.new (intersects.map (fun t => RawIntersect.mk t s world_ray))

/-- `PIXEL_MAX` of `src/scenes/canvas.rs`. -/
def PIXEL_MAX : ℕ := 255

/-- `Pixel` of `src/scenes/canvas.rs`.  Its `u64` channels are embedded as
`ℕ`: every value `Pixel::paint` produces lies in `0..=255`, so `u64`
wraparound is never exercised. -/
structure Pixel where
  red : ℕ
  green : ℕ
  blue : ℕ
deriving DecidableEq, Repr

/-- One channel of `Pixel::paint`: `x > 1.0` clamps to `PIXEL_MAX`,
`x < 0.0` clamps to `0`, otherwise `(x * 255).round() as u64`.  On the
remaining range `0 ≤ x ≤ 1` Rust's round-half-away-from-zero agrees with
Mathlib's `round` (half-up). -/
def paint_channel (x : ℚ) : ℕ :=
  if x > 1 then PIXEL_MAX
  else if x < 0 then 0
  else (round (x * (PIXEL_MAX : ℚ))).toNat

/-- `Pixel::paint` of `src/scenes/canvas.rs`. -/
def Pixel.paint (colour : Colour) : Pixel :=
  ⟨paint_channel colour.red, paint_channel colour.green, paint_channel colour.blue⟩

/-- `WriteError` of `src/scenes/canvas.rs`. -/
inductive WriteError where
  | OutOfBounds
deriving DecidableEq, Repr

/-- `Size` of `src/scenes/canvas.rs`. -/
structure Size where
  width : ℕ
  height : ℕ
deriving DecidableEq, Repr

/-- `Canvas` of `src/scenes/canvas.rs`. -/
structure Canvas where
  size : Size
  pixels : List (List Pixel)
deriving DecidableEq, Repr

/-- `Canvas::new` of `src/scenes/canvas.rs`: `height` rows of `width` black
pixels. -/
def Canvas.new (width height : ℕ) : Canvas :=
  ⟨⟨width, height⟩,
   List.replicate height (List.replicate width (Pixel.paint ⟨0, 0, 0⟩))⟩

/-- Outcome of `Canvas::paint_colour`: `ok` (returned `Ok(())` and mutated
the canvas to the given state), `err` (returned `Err`), or `panicked`
(out-of-range `Vec` indexing in `self.pixels[row][column]`). -/
inductive PaintOutcome where
  | ok (c : Canvas)
  | err (e : WriteError)
  | panicked
deriving DecidableEq, Repr

/-- `Canvas::paint_colour` of `src/scenes/canvas.rs`: the guard returns
`Err(WriteError::OutOfBounds)` when `column > width || row > height`
(strict comparisons); otherwise `self.pixels[row][column]` is assigned,
which panics when `row` or `column` is out of range of the actual
vectors. -/
def Canvas.paint_colour (c : Canvas) (column row : ℕ) (colour : Colour) :
    PaintOutcome :=
  if column > c.size.width ∨ row > c.size.height then
    .err .OutOfBounds
  else
    match c.pixels[row]? with
    | none => .panicked
    | some row_pixels =>
        if column < row_pixels.length then
          .ok { c with
                pixels := c.pixels.set row (row_pixels.set column (Pixel.paint colour)) }
        else
          .panicked

end RT

namespace RW

/-- Modelled from the spec: `Point` of the `collections` collaborator, over
the reals for `src/ray.rs` (whose results involve square roots). -/
structure Point where
  x : ℝ
  y : ℝ
  z : ℝ

/-- Modelled from the spec: `Vector` of the `collections` collaborator,
over the reals. -/
structure Vector where
  x : ℝ
  y : ℝ
  z : ℝ

/-- Modelled from the spec: `Point::zero()`, the origin. -/
def Point.zero : Point := ⟨0, 0, 0⟩

/-- Modelled from the spec: point difference yields a vector. -/
noncomputable def Point.sub (p q : Point) : Vector :=
  ⟨p.x - q.x, p.y - q.y, p.z - q.z⟩

/-- Modelled from the spec: dot product. -/
noncomputable def Vector.dot (v w : Vector) : ℝ :=
  v.x * w.x + v.y * w.y + v.z * w.z

/-- Modelled from the spec: the affine-transform collaborator of
`src/ray.rs`, embedded by its forward and inverse actions. -/
structure Transform where
  fwdP : Point → Point
  fwdV : Vector → Vector
  invP : Point → Point
  invV : Vector → Vector

/-- Modelled from the spec: `Transform::invert` swaps forward and inverse
actions. -/
def Transform.invert (t : Transform) : Transform :=
  ⟨t.invP, t.invV, t.fwdP, t.fwdV⟩

/-- Modelled from the spec: the identity transform
(`TransformKind::Identity`). -/
def Transform.identity : Transform := ⟨id, id, id, id⟩

/-- `Sphere` of `src/ray.rs`: a unit sphere at the origin of its local
space, carrying only a transform. -/
structure Sphere where
  transform : Transform

/-- `Sphere::get_transform` of `src/ray.rs`. -/
def Sphere.get_transform (s : Sphere) : Transform := s.transform

/-- `Ray` of `src/ray.rs`. -/
structure Ray where
  origin : Point
  direction : Vector

/-- `Transformable for Ray` of `src/ray.rs`: transforms the origin as a
point and the direction as a vector. -/
def Ray.transform (r : Ray) (t : Transform) : Ray :=
  ⟨t.fwdP r.origin, t.fwdV r.direction⟩

/-- `Intersect` of the `intersections` module consumed by `src/ray.rs`
(that module itself is not under `src/`).  Modelled from the spec: an
intersection record pairs the scalar parameter with the struck shape. -/
structure Intersect where
  t : ℝ
  object : Sphere

/-- Modelled from the spec: stable insertion into a list sorted ascending
by `t`, for the collection constructor of the `intersections` module. -/
noncomputable def insert_ordered (x : Intersect) :
    List Intersect → List Intersect
  | [] => [x]
  | y :: ys => if x.t ≤ y.t then x :: y :: ys else y :: insert_ordered x ys

/-- Modelled from the spec: stable insertion sort ascending by `t`. -/
noncomputable def sort_ordered : List Intersect → List Intersect
  | [] => []
  | x :: xs => insert_ordered x (sort_ordered xs)

/-- The intersection collection consumed by `src/ray.rs`. -/
structure Intersections where
  recs : List Intersect

/-- Modelled from the spec: the collection constructor of the
`intersections` module — requires at least one record (`none` models the
precondition failure) and sorts ascending by `t`. -/
noncomputable def Intersections.new : List Intersect → Option Intersections
  | [] => none
  | x :: xs => some ⟨sort_ordered (x :: xs)⟩

/-- The local-space ray of `Ray::intersect` (`src/ray.rs` line 42):
`self.transform(&s.get_transform().invert())`. -/
def local_ray (r : Ray) (s : Sphere) : Ray :=
  r.transform s.get_transform.invert

/-- `sphere_to_ray` of `Ray::intersect`:
`transformed_ray.origin - Point::zero()`. -/
noncomputable def sphere_to_ray (r : Ray) (s : Sphere) : Vector :=
  (local_ray r s).origin.sub Point.zero

/-- `a` of the quadratic in `Ray::intersect`. -/
noncomputable def quad_a (r : Ray) (s : Sphere) : ℝ :=
  (local_ray r s).direction.dot (local_ray r s).direction

/-- `b` of the quadratic in `Ray::intersect`. -/
noncomputable def quad_b (r : Ray) (s : Sphere) : ℝ :=
  2 * (local_ray r s).direction.dot (sphere_to_ray r s)

/-- `c` of the quadratic in `Ray::intersect`. -/
noncomputable def quad_c (r : Ray) (s : Sphere) : ℝ :=
  (sphere_to_ray r s).dot (sphere_to_ray r s) - 1

/-- The discriminant `b.powf(2.0) - 4.0 * a * c` of `Ray::intersect`. -/
noncomputable def discriminant (r : Ray) (s : Sphere) : ℝ :=
  (quad_b r s) ^ 2 - 4 * quad_a r s * quad_c r s

/-- `t1 = (-b - sqrt_discriminant) / (2.0 * a)` of `Ray::intersect`. -/
noncomputable def root_t1 (r : Ray) (s : Sphere) : ℝ :=
  (-(quad_b r s) - Real.sqrt (discriminant r s)) / (2 * quad_a r s)

/-- `t2 = (-b + sqrt_discriminant) / (2.0 * a)` of `Ray::intersect`. -/
noncomputable def root_t2 (r : Ray) (s : Sphere) : ℝ :=
  (-(quad_b r s) + Real.sqrt (discriminant r s)) / (2 * quad_a r s)

/-- `Ray::intersect` of `src/ray.rs`.  The source tests
`discriminant.sqrt().is_nan()`: for a finite `f64` discriminant the square
root is NaN exactly when the discriminant is negative, which is how the
branch is embedded over ℝ.  On a hit it returns
`Some(Intersections::from(vec![Intersect::new(t1, s), Intersect::new(t2, s)]))`;
`Intersections::from` is `Intersections::new`, which always succeeds on
this two-element vector, so the value below is always `some` in the
non-negative-discriminant branch. -/
noncomputable def Ray.intersect (r : Ray) (s : Sphere) : Option Intersections :=
  if discriminant r s < 0 then
    none
  else
    Intersections.new [⟨root_t1 r s, s⟩, ⟨root_t2 r s, s⟩]

/-- Fixture: the identity-transformed unit sphere of `src/ray.rs`
(`Sphere::new()`). -/
def Sphere.unit : Sphere := ⟨Transform.identity⟩

/-- Fixture: the ray of the `ray_intersects_sphere_at_two_points` test,
origin `(0,0,-5)`, direction `(0,0,1)`. -/
def axis_ray : Ray := ⟨⟨0, 0, -5⟩, ⟨0, 0, 1⟩⟩

end RW

namespace RT

/-- The comparison `a.t ≤ b.t` by which `Intersections` is ordered. -/
def le_t (a b : RawIntersect) : Prop := a.t ≤ b.t

instance : DecidableRel le_t := fun a b => inferInstanceAs (Decidable (a.t ≤ b.t))

/-- A single mutation of an `Intersections` collection: one
`add_raw_intersect` insertion or one `combine_intersections` merge. -/
inductive CollOp where
  | insert (x : RawIntersect)
  | merge (other : Intersections)

/-- Apply one collection mutation. -/
def apply_op (s : Intersections) : CollOp → Intersections
  | .insert x => s.add_raw_intersect x
  | .merge other => s.combine_intersections other

/-- Apply a sequence of collection mutations, in order. -/
def apply_ops (s : Intersections) (ops : List CollOp) : Intersections :=
  ops.foldl apply_op s

/-- Modelled from the spec: the identity-transformed unit sphere as a
`Shape` trait object; its world normal at a surface point `p` is
`p − origin`.  Its local intersection parameters are irrational in general
and play no part in the collection/shading claims, where `local_intersect`
is never invoked; reported as absent here. -/
def unit_sphere_shape : Shape :=
  ⟨fun _ => none, fun p => p - (⟨0, 0, 0⟩ : Point), ⟨0⟩, Transform.identity⟩

/-- Modelled from the spec: the translation by `(0,0,1)`
(`TransformKind::Translate(0.0, 0.0, 1.0)`); vectors are unaffected by
translation. -/
def translate_z1 : Transform :=
  ⟨fun p => ⟨p.x, p.y, p.z + 1⟩, id, fun p => ⟨p.x, p.y, p.z - 1⟩, id⟩

/-- Modelled from the spec: a unit sphere translated by `(0,0,1)` as a
`Shape` trait object; its world normal at a surface point `p` is
`p − (0,0,1)` (the translated centre).  `local_intersect` is never invoked
by the offset-point scenario and is reported as absent. -/
def translated_sphere_shape : Shape :=
  ⟨fun _ => none, fun p => p - (⟨0, 0, 1⟩ : Point), ⟨0⟩, translate_z1⟩

/-- Fixture: the ray of the `intersections_hit` test. -/
def hit_test_ray : Ray := ⟨⟨0, 0, 0⟩, ⟨0, 1, 0⟩⟩

/-- Fixture: a record on the unit sphere with a given `t`. -/
def rec_at (t : ℚ) : RawIntersect := ⟨t, unit_sphere_shape, hit_test_ray⟩

/-- Fixture: the ray of the `compute_intersect_ray_inside` test, cast from
inside the sphere toward `(0,0,1)`. -/
def inside_ray : Ray := ⟨⟨0, 0, 0⟩, ⟨0, 0, 1⟩⟩

/-- Fixture: the `t = 1` record of the `compute_intersect_ray_inside`
test. -/
def inside_ri : RawIntersect := ⟨1, unit_sphere_shape, inside_ray⟩

/-- Fixture: the ray of the `hit_offset_point` test, origin `(0,0,-5)`,
direction `(0,0,1)`. -/
def offset_ray : Ray := ⟨⟨0, 0, -5⟩, ⟨0, 0, 1⟩⟩

/-- Fixture: the `t = 5` record of the `hit_offset_point` test on the
translated sphere. -/
def offset_ri : RawIntersect := ⟨5, translated_sphere_shape, offset_ray⟩

/-- Fixture: a shape whose `local_intersect` reports the parameters
`[2, 1]` for every local ray, for exercising the world-space wrappers. -/
def two_hit_shape : Shape :=
  ⟨fun _ => some [2, 1], fun p => p - (⟨0, 0, 0⟩ : Point), ⟨1⟩, Transform.identity⟩

end RT

namespace RT

theorem Vector.neg_def (v : Vector) : -v = ⟨-v.x, -v.y, -v.z⟩ := rfl

theorem Vector.dot_neg_left (v w : Vector) : (-v).dot w = -(v.dot w) := by
  simp only [Vector.dot, Vector.neg_def]
  ring

theorem precompute_exists (ri : RawIntersect) : ∃ c, ri.precompute = some c := by
  unfold RawIntersect.precompute
  simp only []
  split_ifs with h1 h2
  · exact ⟨_, rfl⟩
  · exact ⟨_, rfl⟩
  · exact absurd (le_of_not_lt h1) h2

/-- C8: over well-formed (non-NaN) dot products — which is every value of
the exact-arithmetic embedding — the strict `< 0` vs `≥ 0` split of
`RawIntersect::precompute` is exhaustive, so the third match arm (the
explicit `panic!()`, modelled as `none`) is unreachable. -/
theorem precompute_never_panics (ri : RawIntersect) :
    ∃ c, ri.precompute = some c :=
  precompute_exists ri

/-- C9: `ComputedIntersect::shade` returns exactly the external lighting
function `shade_phong` applied to the struck object's material, the
`over_point` (not the raw target), `eyev`, the stored normal, and the
shadow flag; being a Lean function it has no side effect. -/
theorem shade_delegates_to_shade_phong (c : ComputedIntersect) (light : Light)
    (shadowed : Bool) :
    c.shade light shadowed =
      light.shadePhong c.object.material c.over_point c.eyev c.normal shadowed :=
  rfl

/-- C6: `Intersections::new` on the empty vector fails fast (the
`assert_ne!` precondition, modelled as `none`); the `Default` constructor
is the valid empty collection; and `new` succeeds on every non-empty
vector. -/
theorem new_nonempty_default_empty :
    Intersections.new ([] : List RawIntersect) = none ∧
    Intersections.default.recs = [] ∧
    ∀ l : List RawIntersect, l ≠ [] → ∃ i, Intersections.new l = some i := by
  refine ⟨rfl, rfl, ?_⟩
  intro l hl
  cases l with
  | nil => exact absurd rfl hl
  | cons x xs => exact ⟨_, rfl⟩

/-- Witness for C6 at the one-record vector `[rec_at 1]`. -/
theorem new_nonempty_default_empty_witness :
    ∃ i, Intersections.new [rec_at 1] = some i :=
  new_nonempty_default_empty.2.2 [rec_at 1] (List.cons_ne_nil _ _)

theorem find_eq_some_split {α : Type} {p : α → Bool} {l : List α} {r : α}
    (h : l.find? p = some r) :
    ∃ l1 l2, l = l1 ++ r :: l2 ∧ ∀ x ∈ l1, p x = false := by
  induction l with
  | nil => simp at h
  | cons a as ih =>
    by_cases hp : p a = true
    · rw [List.find?_cons_of_pos _ hp] at h
      obtain rfl := Option.some_inj.mp h
      exact ⟨[], as, rfl, by simp⟩
    · rw [List.find?_cons_of_neg _ hp] at h
      obtain ⟨l1, l2, hEq, hneg⟩ := ih h
      refine ⟨a :: l1, l2, by rw [hEq, List.cons_append], ?_⟩
      intro x hx
      rcases List.mem_cons.mp hx with rfl | hx'
      · simpa using hp
      · exact hneg x hx'

/-- C2: over a collection sorted ascending by `t`, `hit()` is `none`
exactly when every `t` is negative; otherwise it returns a record with the
smallest non-negative `t`, and that record is the earliest one in sorted
order that is not preceded only by negative-`t` records (so ties resolve
to the earliest in sorted order). -/
theorem hit_smallest_nonneg (l : List RawIntersect) (hs : List.Sorted le_t l) :
    (Intersections.hit ⟨l⟩ = none ↔ ∀ x ∈ l, x.t < 0) ∧
    ∀ r, Intersections.hit ⟨l⟩ = some r →
      0 ≤ r.t ∧ (∀ x ∈ l, 0 ≤ x.t → r.t ≤ x.t) ∧
      ∃ l1 l2, l = l1 ++ r :: l2 ∧ ∀ x ∈ l1, x.t < 0 := by
  constructor
  · unfold Intersections.hit
    rw [List.find?_eq_none]
    constructor
    · intro h x hx
      exact not_le.mp (by simpa using h x hx)
    · intro h x hx
      simpa using not_le.mpr (h x hx)
  · intro r hr
    have hr' : l.find? (fun v => decide (0 ≤ v.t)) = some r := hr
    have hp : 0 ≤ r.t := by simpa using List.find?_some hr'
    obtain ⟨l1, l2, hEq, hneg⟩ := find_eq_some_split hr'
    refine ⟨hp, ?_, l1, l2, hEq, ?_⟩
    · intro x hx hxt
      rw [hEq] at hx hs
      rcases List.mem_append.mp hx with hx1 | hx2
      · exact absurd hxt (by simpa using hneg x hx1)
      · rcases List.mem_cons.mp hx2 with rfl | hx3
        · exact le_refl _
        · exact List.rel_of_pairwise_cons
            (List.Pairwise.sublist (List.sublist_append_right l1 (r :: l2)) hs) hx3
    · intro x hx
      exact not_le.mp (by simpa using hneg x hx)

/-- Witness for C2 at the sorted collection `{t = -3, 2, 5, 7}` of the
hit-selection property. -/
theorem hit_smallest_nonneg_witness :
    (Intersections.hit ⟨[rec_at (-3), rec_at 2, rec_at 5, rec_at 7]⟩ = none ↔
      ∀ x ∈ [rec_at (-3), rec_at 2, rec_at 5, rec_at 7], x.t < 0) ∧
    ∀ r, Intersections.hit ⟨[rec_at (-3), rec_at 2, rec_at 5, rec_at 7]⟩ = some r →
      0 ≤ r.t ∧
      (∀ x ∈ [rec_at (-3), rec_at 2, rec_at 5, rec_at 7], 0 ≤ x.t → r.t ≤ x.t) ∧
      ∃ l1 l2, [rec_at (-3), rec_at 2, rec_at 5, rec_at 7] = l1 ++ r :: l2 ∧
        ∀ x ∈ l1, x.t < 0 :=
  hit_smallest_nonneg [rec_at (-3), rec_at 2, rec_at 5, rec_at 7] (by decide)

theorem mem_add_raw_aux {x y : RawIntersect} {l : List RawIntersect}
    (h : y ∈ add_raw_aux x l) : y = x ∨ y ∈ l := by
  induction l with
  | nil =>
    simp only [add_raw_aux, List.mem_singleton] at h
    exact Or.inl h
  | cons v rest ih =>
    rw [show add_raw_aux x (v :: rest) =
        if x.t < v.t then x :: v :: rest else v :: add_raw_aux x rest from rfl] at h
    by_cases hc : x.t < v.t
    · rw [if_pos hc] at h
      rcases List.mem_cons.mp h with rfl | h2
      · exact Or.inl rfl
      · exact Or.inr h2
    · rw [if_neg hc] at h
      rcases List.mem_cons.mp h with rfl | h2
      · exact Or.inr (List.mem_cons_self _ _)
      · rcases ih h2 with h3 | h3
        · exact Or.inl h3
        · exact Or.inr (List.mem_cons_of_mem _ h3)

theorem sorted_add_raw_aux {x : RawIntersect} {l : List RawIntersect}
    (hs : List.Sorted le_t l) : List.Sorted le_t (add_raw_aux x l) := by
  induction l with
  | nil => simp [add_raw_aux, le_t]
  | cons v rest ih =>
    rw [show add_raw_aux x (v :: rest) =
        if x.t < v.t then x :: v :: rest else v :: add_raw_aux x rest from rfl]
    rw [List.sorted_cons] at hs
    by_cases hc : x.t < v.t
    · rw [if_pos hc, List.sorted_cons]
      refine ⟨?_, List.sorted_cons.mpr hs⟩
      intro b hb
      rcases List.mem_cons.mp hb with rfl | hb2
      · exact le_of_lt hc
      · exact le_trans (le_of_lt hc) (hs.1 b hb2)
    · rw [if_neg hc, List.sorted_cons]
      refine ⟨?_, ih hs.2⟩
      intro b hb
      rcases mem_add_raw_aux hb with rfl | hb2
      · exact le_of_not_lt hc
      · exact hs.1 b hb2

theorem mem_insert_by_t {x y : RawIntersect} {l : List RawIntersect}
    (h : y ∈ insert_by_t x l) : y = x ∨ y ∈ l := by
  induction l with
  | nil =>
    simp only [insert_by_t, List.mem_singleton] at h
    exact Or.inl h
  | cons v rest ih =>
    rw [show insert_by_t x (v :: rest) =
        if x.t ≤ v.t then x :: v :: rest else v :: insert_by_t x rest from rfl] at h
    by_cases hc : x.t ≤ v.t
    · rw [if_pos hc] at h
      rcases List.mem_cons.mp h with rfl | h2
      · exact Or.inl rfl
      · exact Or.inr h2
    · rw [if_neg hc] at h
      rcases List.mem_cons.mp h with rfl | h2
      · exact Or.inr (List.mem_cons_self _ _)
      · rcases ih h2 with h3 | h3
        · exact Or.inl h3
        · exact Or.inr (List.mem_cons_of_mem _ h3)

theorem sorted_insert_by_t {x : RawIntersect} {l : List RawIntersect}
    (hs : List.Sorted le_t l) : List.Sorted le_t (insert_by_t x l) := by
  induction l with
  | nil => simp [insert_by_t, le_t]
  | cons v rest ih =>
    rw [show insert_by_t x (v :: rest) =
        if x.t ≤ v.t then x :: v :: rest else v :: insert_by_t x rest from rfl]
    rw [List.sorted_cons] at hs
    by_cases hc : x.t ≤ v.t
    · rw [if_pos hc, List.sorted_cons]
      refine ⟨?_, List.sorted_cons.mpr hs⟩
      intro b hb
      rcases List.mem_cons.mp hb with rfl | hb2
      · exact hc
      · exact le_trans hc (hs.1 b hb2)
    · rw [if_neg hc, List.sorted_cons]
      refine ⟨?_, ih hs.2⟩
      intro b hb
      rcases mem_insert_by_t hb with rfl | hb2
      · exact le_of_not_le hc
      · exact hs.1 b hb2

theorem sorted_sort_by_t (l : List RawIntersect) :
    List.Sorted le_t (sort_by_t l) := by
  induction l with
  | nil => simp [sort_by_t]
  | cons x xs ih => exact sorted_insert_by_t ih

theorem sorted_foldl_add (other : List RawIntersect) :
    ∀ s : Intersections, List.Sorted le_t s.recs →
      List.Sorted le_t (other.foldl Intersections.add_raw_intersect s).recs := by
  induction other with
  | nil => intro s hs; exact hs
  | cons x rest ih => intro s hs; exact ih _ (sorted_add_raw_aux hs)

theorem sorted_apply_ops (ops : List CollOp) :
    ∀ s : Intersections, List.Sorted le_t s.recs →
      List.Sorted le_t (apply_ops s ops).recs := by
  induction ops with
  | nil => intro s hs; exact hs
  | cons op rest ih =>
    intro s hs
    cases op with
    | insert x => exact ih _ (sorted_add_raw_aux hs)
    | merge o => exact ih _ (sorted_foldl_add o.recs s hs)

/-- C3: sortedness is an invariant — starting from a collection whose `t`
values are non-decreasing, any sequence of `add_raw_intersect` insertions
and `combine_intersections` merges keeps them non-decreasing, and
`Intersections::new` also only ever constructs a collection sorted
ascending by `t`. -/
theorem sorted_invariant (s : Intersections) (ops : List CollOp)
    (hs : List.Sorted le_t s.recs) :
    List.Sorted le_t (apply_ops s ops).recs ∧
    ∀ (v : List RawIntersect) (i : Intersections),
      Intersections.new v = some i → List.Sorted le_t i.recs := by
  refine ⟨sorted_apply_ops ops s hs, ?_⟩
  intro v i hv
  cases v with
  | nil => cases hv
  | cons a as =>
    rw [show Intersections.new (a :: as) = some ⟨sort_by_t (a :: as)⟩ from rfl] at hv
    obtain rfl := Option.some_inj.mp hv
    exact sorted_sort_by_t _

/-- Witness for C3: an insertion followed by a merge applied to the sorted
collection `{t = -3, 2}`. -/
theorem sorted_invariant_witness :
    List.Sorted le_t
      (apply_ops ⟨[rec_at (-3), rec_at 2]⟩
        [CollOp.insert (rec_at 1), CollOp.merge ⟨[rec_at 0, rec_at 3]⟩]).recs ∧
    ∀ (v : List RawIntersect) (i : Intersections),
      Intersections.new v = some i → List.Sorted le_t i.recs :=
  sorted_invariant ⟨[rec_at (-3), rec_at 2]⟩
    [CollOp.insert (rec_at 1), CollOp.merge ⟨[rec_at 0, rec_at 3]⟩] (by decide)

/-- C4: `precompute` sets `target = ray.position(t)`, `eyev` to the negated
ray direction, and `inside` exactly when the world-space normal at `target`
dotted with `eyev` is strictly negative; when `inside` the stored normal is
the negated geometric normal (otherwise the geometric normal itself), so
the stored normal always satisfies `normal · eyev ≥ 0`. -/
theorem precompute_inside_normal (ri : RawIntersect) (c : ComputedIntersect)
    (h : ri.precompute = some c) :
    c.target = ri.ray.position ri.t ∧
    c.eyev = -ri.ray.direction ∧
    (c.inside = true ↔ (ri.object.normalAt c.target).dot c.eyev < 0) ∧
    (c.inside = true → c.normal = -(ri.object.normalAt c.target)) ∧
    (c.inside = false → c.normal = ri.object.normalAt c.target) ∧
    0 ≤ c.normal.dot c.eyev := by
  unfold RawIntersect.precompute at h
  simp only [] at h
  split_ifs at h with h1 h2
  · obtain rfl := Option.some_inj.mp h
    refine ⟨rfl, rfl, by simpa using h1, fun _ => rfl, ?_, ?_⟩
    · intro hfalse
      exact absurd hfalse (by simp)
    · rw [Vector.dot_neg_left]
      exact neg_nonneg.mpr (le_of_lt h1)
  · obtain rfl := Option.some_inj.mp h
    refine ⟨rfl, rfl, ?_, ?_, fun _ => rfl, h2⟩
    · constructor
      · intro hfalse
        exact absurd hfalse (by simp)
      · intro hlt
        exact absurd h2 (not_le.mpr hlt)
    · intro htrue
      exact absurd htrue (by simp)

theorem Point.add_vec (p : Point) (v : Vector) :
    p + v = ⟨p.x + v.x, p.y + v.y, p.z + v.z⟩ := rfl

theorem Point.sub_point (p q : Point) :
    p - q = (⟨p.x - q.x, p.y - q.y, p.z - q.z⟩ : Vector) := rfl

theorem smul_vec (c : ℚ) (v : Vector) : c * v = ⟨c * v.x, c * v.y, c * v.z⟩ := rfl

theorem vec_mul_scalar (v : Vector) (c : ℚ) : v * c = ⟨v.x * c, v.y * c, v.z * c⟩ := rfl

theorem inside_precompute_eval :
    inside_ri.precompute =
      some ⟨1, unit_sphere_shape, inside_ray, ⟨0, 0, 1⟩, ⟨0, 0, -1⟩, ⟨0, 0, -1⟩,
            true, ⟨0, 0, 999999 / 1000000⟩⟩ := by
  unfold RawIntersect.precompute inside_ri inside_ray
  norm_num [Ray.position, Vector.dot, unit_sphere_shape, Point.add_vec,
    Point.sub_point, smul_vec, vec_mul_scalar, Vector.neg_def, EPSILON]

theorem offset_precompute_eval :
    offset_ri.precompute =
      some ⟨5, translated_sphere_shape, offset_ray, ⟨0, 0, 0⟩, ⟨0, 0, -1⟩,
            ⟨0, 0, -1⟩, false, ⟨0, 0, -(1 / 1000000)⟩⟩ := by
  unfold RawIntersect.precompute offset_ri offset_ray
  norm_num [Ray.position, Vector.dot, translated_sphere_shape, Point.add_vec,
    Point.sub_point, smul_vec, vec_mul_scalar, Vector.neg_def, EPSILON]

/-- Witness for C4: the ray cast from inside the unit sphere toward
`(0,0,1)` at `t = 1` — `inside` is true and the normal is flipped to
`(0,0,-1)`. -/
theorem precompute_inside_normal_witness :
    ∃ c, inside_ri.precompute = some c ∧
      c.inside = true ∧ c.normal = (⟨0, 0, -1⟩ : Vector) ∧
      (c.inside = true ↔ (inside_ri.object.normalAt c.target).dot c.eyev < 0) ∧
      0 ≤ c.normal.dot c.eyev := by
  refine ⟨_, inside_precompute_eval, rfl, rfl,
    (precompute_inside_normal inside_ri _ inside_precompute_eval).2.2.1,
    (precompute_inside_normal inside_ri _ inside_precompute_eval).2.2.2.2.2⟩

/-- C5: `precompute` sets `over_point = target + normal * EPSILON`
(`EPSILON = 1e-6`, `normal` the possibly flipped normal); in the
offset-point scenario — sphere translated by `(0,0,1)`, ray from
`(0,0,-5)` toward `(0,0,1)`, `t = 5` — the computed `over_point.z` is
strictly below `-EPSILON / 2` and strictly below `target.z`. -/
theorem precompute_over_point :
    (∀ (ri : RawIntersect) (c : ComputedIntersect), ri.precompute = some c →
        c.over_point = c.target + c.normal * EPSILON) ∧
    (∀ c : ComputedIntersect, offset_ri.precompute = some c →
        c.over_point.z < -EPSILON / 2 ∧ c.over_point.z < c.target.z) := by
  constructor
  · intro ri c h
    unfold RawIntersect.precompute at h
    simp only [] at h
    split_ifs at h with h1 h2
    · obtain rfl := Option.some_inj.mp h
      rfl
    · obtain rfl := Option.some_inj.mp h
      rfl
  · intro c h
    rw [offset_precompute_eval] at h
    obtain rfl := Option.some_inj.mp h
    constructor
    · norm_num [EPSILON]
    · norm_num

/-- Witness for C5: the offset-point scenario itself. -/
theorem precompute_over_point_witness :
    ∃ c, offset_ri.precompute = some c ∧
      c.over_point = c.target + c.normal * EPSILON ∧
      c.over_point.z < -EPSILON / 2 ∧ c.over_point.z < c.target.z :=
  ⟨_, offset_precompute_eval,
    precompute_over_point.1 offset_ri _ offset_precompute_eval,
    precompute_over_point.2 _ offset_precompute_eval⟩

/-- C7: the generic blanket wrapper and the type-erased wrapper of
`src/utils/shape.rs` behave identically on every shape and world ray, and
both transform the world ray by the inverse of the shape's transform,
return the default (empty) collection when `local_intersect` reports no
intersections, and otherwise wrap each returned parameter into a record
bound to the shape and the original world ray. -/
theorem intersectable_wrappers_agree (s : Shape) (r : Ray) :
    intersect_generic s r = intersect_dyn s r ∧
    (s.localIntersect (r.transform s.transformationMatrix.invert) = none →
      intersect_generic s r = some Intersections.default) ∧
    ∀ ts, s.localIntersect (r.transform s.transformationMatrix.invert) = some ts →
      intersect_generic s r =
        Intersections.new (ts.map (fun t => RawIntersect.mk t s r)) := by
  refine ⟨rfl, ?_, ?_⟩
  · intro h
    unfold intersect_generic
    simp only []
    rw [h]
  · intro ts h
    unfold intersect_generic
    simp only []
    rw [h]

/-- Witness for C7 at a shape reporting local parameters `[2, 1]`. -/
theorem intersectable_wrappers_agree_witness :
    intersect_generic two_hit_shape hit_test_ray =
      intersect_dyn two_hit_shape hit_test_ray ∧
    intersect_generic two_hit_shape hit_test_ray =
      Intersections.new
        ([2, 1].map (fun t => RawIntersect.mk t two_hit_shape hit_test_ray)) :=
  ⟨(intersectable_wrappers_agree two_hit_shape hit_test_ray).1,
   (intersectable_wrappers_agree two_hit_shape hit_test_ray).2.2 [2, 1] rfl⟩

/-- C10: `Canvas::paint_colour` returns `Err(WriteError::OutOfBounds)`
exactly when `column > width` or `row > height` (strict comparisons); a
call that passes that guard with `column = width` or `row = height`
reaches the out-of-range vector indexing (a panic) instead of the error;
and every call with `column < width` and `row < height` succeeds,
updating exactly the addressed pixel. -/
theorem paint_colour_bounds (c : Canvas) (column row : ℕ) (colour : Colour)
    (hh : c.pixels.length = c.size.height)
    (hw : ∀ rp ∈ c.pixels, rp.length = c.size.width) :
    (c.paint_colour column row colour = .err .OutOfBounds ↔
      c.size.width < column ∨ c.size.height < row) ∧
    (column ≤ c.size.width → row ≤ c.size.height →
      (column = c.size.width ∨ row = c.size.height) →
      c.paint_colour column row colour = .panicked) ∧
    (column < c.size.width → row < c.size.height →
      ∃ rp, c.pixels[row]? = some rp ∧
        c.paint_colour column row colour =
          .ok ⟨c.size, c.pixels.set row (rp.set column (Pixel.paint colour))⟩ ∧
        (∀ i j : ℕ, ¬(i = row ∧ j = column) →
          ((c.pixels.set row (rp.set column (Pixel.paint colour)))[i]?.bind
              fun w => w[j]?) =
            (c.pixels[i]?.bind fun w => w[j]?)) ∧
        ((c.pixels.set row (rp.set column (Pixel.paint colour)))[row]?.bind
            fun w => w[column]?) = some (Pixel.paint colour)) := by
  refine ⟨?_, ?_, ?_⟩
  · constructor
    · intro h
      by_contra hg
      unfold Canvas.paint_colour at h
      rw [if_neg hg] at h
      cases hrow : c.pixels[row]? with
      | none => rw [hrow] at h; cases h
      | some rp =>
        rw [hrow] at h
        simp only [] at h
        split_ifs at h
    · intro hg
      unfold Canvas.paint_colour
      rw [if_pos hg]
  · intro h1 h2 h3
    have hg : ¬(c.size.width < column ∨ c.size.height < row) := by
      push_neg
      exact ⟨h1, h2⟩
    unfold Canvas.paint_colour
    rw [if_neg hg]
    by_cases hrh : row = c.size.height
    · have hnone : c.pixels[row]? = none :=
        List.getElem?_eq_none (by rw [hh, hrh])
      rw [hnone]
    · have hcw : column = c.size.width := by
        rcases h3 with h3 | h3
        · exact h3
        · exact absurd h3 hrh
      have hrlt : row < c.pixels.length := by
        rw [hh]
        exact lt_of_le_of_ne h2 hrh
      rw [List.getElem?_eq_getElem hrlt]
      have hlen : (c.pixels[row]).length = c.size.width :=
        hw _ (List.getElem_mem hrlt)
      simp only []
      rw [if_neg (by rw [hlen, ← hcw]; exact lt_irrefl column)]
  · intro hcol hrow
    have hg : ¬(c.size.width < column ∨ c.size.height < row) := by
      push_neg
      exact ⟨le_of_lt hcol, le_of_lt hrow⟩
    have hrlt : row < c.pixels.length := by
      rw [hh]
      exact hrow
    have hlen : (c.pixels[row]).length = c.size.width :=
      hw _ (List.getElem_mem hrlt)
    refine ⟨c.pixels[row], List.getElem?_eq_getElem hrlt, ?_, ?_, ?_⟩
    · unfold Canvas.paint_colour
      rw [if_neg hg, List.getElem?_eq_getElem hrlt]
      simp only []
      rw [if_pos (by rw [hlen]; exact hcol)]
    · intro i j hij
      by_cases hi : i = row
      · subst hi
        have hj : j ≠ column := by
          intro hj
          exact hij ⟨rfl, hj⟩
        rw [List.getElem?_set_self hrlt, List.getElem?_eq_getElem hrlt]
        simp only [Option.some_bind]
        exact List.getElem?_set_ne (fun hc => hj hc.symm)
      · rw [List.getElem?_set_ne (fun hc => hi hc.symm)]
    · rw [List.getElem?_set_self hrlt]
      simp only [Option.some_bind]
      exact List.getElem?_set_self (by rw [hlen]; exact hcol)

/-- Witness for C10 on a fresh 2×3 canvas, painting pixel `(0, 1)`. -/
theorem paint_colour_bounds_witness :
    ((Canvas.new 2 3).paint_colour 0 1 ⟨1, 0, 0⟩ = .err .OutOfBounds ↔
      (Canvas.new 2 3).size.width < 0 ∨ (Canvas.new 2 3).size.height < 1) ∧
    (0 ≤ (Canvas.new 2 3).size.width → 1 ≤ (Canvas.new 2 3).size.height →
      (0 = (Canvas.new 2 3).size.width ∨ 1 = (Canvas.new 2 3).size.height) →
      (Canvas.new 2 3).paint_colour 0 1 ⟨1, 0, 0⟩ = .panicked) ∧
    (0 < (Canvas.new 2 3).size.width → 1 < (Canvas.new 2 3).size.height →
      ∃ rp, (Canvas.new 2 3).pixels[1]? = some rp ∧
        (Canvas.new 2 3).paint_colour 0 1 ⟨1, 0, 0⟩ =
          .ok ⟨(Canvas.new 2 3).size,
               (Canvas.new 2 3).pixels.set 1 (rp.set 0 (Pixel.paint ⟨1, 0, 0⟩))⟩ ∧
        (∀ i j : ℕ, ¬(i = 1 ∧ j = 0) →
          (((Canvas.new 2 3).pixels.set 1
              (rp.set 0 (Pixel.paint ⟨1, 0, 0⟩)))[i]?.bind fun w => w[j]?) =
            ((Canvas.new 2 3).pixels[i]?.bind fun w => w[j]?)) ∧
        (((Canvas.new 2 3).pixels.set 1
            (rp.set 0 (Pixel.paint ⟨1, 0, 0⟩)))[1]?.bind fun w => w[0]?) =
          some (Pixel.paint ⟨1, 0, 0⟩)) :=
  paint_colour_bounds (Canvas.new 2 3) 0 1 ⟨1, 0, 0⟩ (by decide) (by decide)

end RT

namespace RW

theorem sort_ordered_pair (a b : Intersect) :
    sort_ordered [a, b] = if a.t ≤ b.t then [a, b] else [b, a] := by
  simp only [sort_ordered, insert_ordered]

/-- C1: `Ray::intersect` returns `None` exactly when the discriminant
`b² − 4ac` of the quadratic — computed from the ray transformed by the
inverse of the sphere's transform — is negative (the source's
`sqrt(disc).is_nan()` test); otherwise it returns a collection of exactly
two records, both bound to the sphere, whose parameters are
`t1 = (−b − √disc)/(2a)` and `t2 = (−b + √disc)/(2a)`, equal when the
discriminant is zero (tangent ray). -/
theorem intersect_none_iff_neg_discriminant (r : Ray) (s : Sphere) :
    (r.intersect s = none ↔ discriminant r s < 0) ∧
    (0 ≤ discriminant r s →
      ∃ I, r.intersect s = some I ∧
        I.recs.length = 2 ∧
        (I.recs.map Intersect.t).Perm [root_t1 r s, root_t2 r s] ∧
        (∀ rec ∈ I.recs, rec.object = s) ∧
        (discriminant r s = 0 → root_t1 r s = root_t2 r s)) := by
  constructor
  · constructor
    · intro h
      by_contra hneg
      unfold Ray.intersect at h
      rw [if_neg hneg] at h
      exact absurd h (by simp [Intersections.new])
    · intro h
      unfold Ray.intersect
      rw [if_pos h]
  · intro h
    unfold Ray.intersect
    rw [if_neg (not_lt.mpr h)]
    rw [show Intersections.new [⟨root_t1 r s, s⟩, ⟨root_t2 r s, s⟩] =
        some ⟨sort_ordered [⟨root_t1 r s, s⟩, ⟨root_t2 r s, s⟩]⟩ from rfl]
    refine ⟨_, rfl, ?_, ?_, ?_, ?_⟩
    · rw [sort_ordered_pair]
      split_ifs <;> rfl
    · rw [sort_ordered_pair]
      split_ifs
      · exact List.Perm.refl _
      · exact (List.Perm.swap _ _ _).symm
    · rw [sort_ordered_pair]
      split_ifs <;> intro rec hrec <;> simp only [List.mem_cons,
        List.mem_singleton, List.not_mem_nil, or_false] at hrec <;>
        rcases hrec with rfl | rfl <;> rfl
    · intro h0
      unfold root_t1 root_t2
      rw [h0, Real.sqrt_zero, sub_zero, add_zero]

/-- Witness for C1: the axis-aligned ray from `(0,0,-5)` through the unit
sphere, whose discriminant is `4 ≥ 0`. -/
theorem intersect_none_iff_neg_discriminant_witness :
    0 ≤ discriminant axis_ray Sphere.unit ∧
    ∃ I, axis_ray.intersect Sphere.unit = some I ∧
      I.recs.length = 2 ∧
      (I.recs.map Intersect.t).Perm
        [root_t1 axis_ray Sphere.unit, root_t2 axis_ray Sphere.unit] ∧
      (∀ rec ∈ I.recs, rec.object = Sphere.unit) ∧
      (discriminant axis_ray Sphere.unit = 0 →
        root_t1 axis_ray Sphere.unit = root_t2 axis_ray Sphere.unit) := by
  have hd : discriminant axis_ray Sphere.unit = 4 := by
    unfold discriminant quad_a quad_b quad_c sphere_to_ray local_ray axis_ray
      Sphere.unit
    norm_num [Ray.transform, Transform.invert, Transform.identity,
      Sphere.get_transform, Vector.dot, Point.sub, Point.zero]
  have hnn : 0 ≤ discriminant axis_ray Sphere.unit := by
    rw [hd]
    norm_num
  exact ⟨hnn, (intersect_none_iff_neg_discriminant axis_ray Sphere.unit).2 hnn⟩

end RW
